import Mathlib

/-!
# Verification of the Ups application registry (src/src/main.rs)

A shallow embedding of the core of the `ups` tool: the registry of tracked
applications (`Ups`), checker-script invocation (`latest_value`), the full
refresh (`update_latest_value`), registration (`insert`), snapshotting
(`snapshot`), and the tab-delimited persistence format (`save` / `load`).

Strings are modelled as `List Char` (`Str`) so that the Rust string
operations (`str::trim`, `str::split_whitespace`, `str::lines`) can be
embedded as structurally recursive functions.  The file system and process
environment are modelled as explicit parameters:

* a checker-script execution environment `Env : Str → ScriptOutcome`
  mapping a script path to the outcome of spawning and running it
  (`ScriptOutcome.spawnError` models `Command::new(..).output()` failing —
  or the captured stdout not being valid UTF-8 — while
  `ScriptOutcome.ran ok out` models a process that ran to completion with
  success flag `ok` and captured stdout `out`);
* a canonicalization function `Fs : Str → Except Str Str` modelling
  `Path::canonicalize` (`.error e` when the path cannot be resolved);
* the data file's content as an `Option Str` (`none` = file absent).

`Ups.apps` is a `HashMap<String, App>` in Rust; it is embedded as an
association list whose keys are unique in every reachable state.  Lookup
(`findApp`) returns the first match, and the in-place updates performed via
`get_mut` are embedded as maps over all matching keys, which coincides with
the single-entry update whenever keys are unique.  Mutating methods are
embedded in a state-passing style, `Ups → Ups × Except Str Unit`, where an
`.error` result is paired with exactly the registry state the Rust method
leaves behind when it early-returns with `?`.
-/

/-- Strings of the embedded program. -/
abbrev Str := List Char

/-- Rust `char::is_whitespace`, restricted to the ASCII whitespace
characters that can actually occur in this tool's data (the claims never
exercise non-ASCII Unicode whitespace). -/
def isWS (c : Char) : Bool :=
  c = ' ' || c = '\t' || c = '\n' || c = '\r'

/-- Rust `str::trim`: remove leading and trailing whitespace. -/
def trimStr (s : Str) : Str :=
  ((s.dropWhile isWS).reverse.dropWhile isWS).reverse

/-- Accumulator worker for `tokens`; `acc` holds the current in-progress
token, reversed. -/
def tokensAux : Str → Str → List Str
  | [], acc => if acc.isEmpty then [] else [acc.reverse]
  | c :: rest, acc =>
    if isWS c then
      if acc.isEmpty then tokensAux rest []
      else acc.reverse :: tokensAux rest []
    else tokensAux rest (c :: acc)

/-- Rust `str::split_whitespace`: maximal runs of non-whitespace
characters, with no empty tokens. -/
def tokens (s : Str) : List Str :=
  tokensAux s []

/-- Split on `'\n'`, keeping empty segments (`"a\n\nb"` gives three
segments).  Always returns at least one segment. -/
def splitNl : Str → List Str
  | [] => [[]]
  | c :: rest =>
    if c = '\n' then [] :: splitNl rest
    else
      match splitNl rest with
      | [] => [[c]]
      | l :: ls => (c :: l) :: ls

/-- Strip one trailing `'\r'`, as Rust `str::lines` does per line. -/
def stripCr (s : Str) : Str :=
  if s.getLast? = some '\r' then s.dropLast else s

/-- Rust `str::lines`: split on `'\n'`, drop a final empty segment (so a
trailing newline does not produce an extra empty line), strip a trailing
`'\r'` from each line. -/
def rustLines (s : Str) : List Str :=
  (if (splitNl s).getLast? = some [] then (splitNl s).dropLast
   else splitNl s).map stripCr

/-- `const NONE: &str = "NONE";` — the sentinel for an absent value. -/
def NONE : Str := "NONE".toList

/-- `struct App` — one tracked application's state. -/
structure App where
  script_path : Str
  latest_value : Str
  snapshot_value : Str
deriving DecidableEq, Repr, Inhabited

/-- `struct Ups { apps: HashMap<String, App> }` — the registry, embedded as
an association list with unique keys in every reachable state. -/
structure Ups where
  apps : List (Str × App)
deriving DecidableEq, Repr, Inhabited

/-- `HashMap::get` — first entry with the given key. -/
def findApp : List (Str × App) → Str → Option App
  | [], _ => none
  | (n, a) :: rest, k => if n = k then some a else findApp rest k

/-- Rewrite the value stored under key `k` with `f` (all matching keys;
the unique one in reachable states).  This is how the in-place mutations
through `HashMap::get_mut` / `HashMap::insert`-over-existing-key are
embedded. -/
def mapEntry (l : List (Str × App)) (k : Str) (f : App → App) :
    List (Str × App) :=
  l.map (fun p => if p.1 = k then (p.1, f p.2) else p)

/-- `HashMap::insert` — replace the entry for `k` if present, otherwise
append a new entry. -/
def hmInsert (l : List (Str × App)) (k : Str) (v : App) : List (Str × App) :=
  if (findApp l k).isSome then mapEntry l k (fun _ => v)
  else l ++ [(k, v)]

/-- `self.apps.get_mut(&n).latest_value = v` — update the latest value of
the entry for `k`. -/
def setLatest (l : List (Str × App)) (k : Str) (v : Str) : List (Str × App) :=
  mapEntry l k (fun a => { a with latest_value := v })

/-- `app.latest_value = v; app.snapshot_value = v` in `snapshot`. -/
def setBoth (l : List (Str × App)) (k : Str) (v : Str) : List (Str × App) :=
  mapEntry l k (fun a => { a with latest_value := v, snapshot_value := v })

/-- Outcome of attempting to execute a checker script. -/
inductive ScriptOutcome where
  /-- `Command::new(script_path).output()` itself failed (the executable
  cannot be spawned at all), or the captured stdout was not valid UTF-8:
  an underlying infrastructure error, carried as the error message. -/
  | spawnError (msg : Str)
  /-- The process ran to completion with `status.success() = ok` and
  captured stdout `out`. -/
  | ran (ok : Bool) (out : Str)
deriving DecidableEq

/-- The process environment: what executing each script path yields. -/
abbrev Env := Str → ScriptOutcome

/-- The filesystem as seen by `Path::canonicalize`: `.ok canon` when the
path resolves, `.error e` when it cannot be resolved. -/
abbrev Fs := Str → Except Str Str

/-- Body of the thread spawned by `Ups::latest_value`: run the script,
return the trimmed stdout if the exit status is success and the trimmed
stdout is non-empty, otherwise the `NONE` sentinel; an infrastructure
error propagates as `Err` via `?`. -/
def runScript (env : Env) (script_path : Str) : Except Str Str :=
  match env script_path with
  | .spawnError msg => .error msg
  | .ran ok out =>
    let value := trimStr out
    if ok && !value.isEmpty then .ok value else .ok NONE

/-- `"App `{name}` is not registered."` -/
def notRegisteredMsg (name : Str) : Str :=
  "App `".toList ++ name ++ "` is not registered.".toList

/-- `Ups::latest_value`: look the name up (error if absent), then spawn the
checker thread.  The returned inner `Except` is the joined thread result
(`JoinHandle<Result<String>>` resolved against the deterministic `env`). -/
def Ups.latest_value (ups : Ups) (env : Env) (name : Str) :
    Except Str (Except Str Str) :=
  match findApp ups.apps name with
  | none => .error (notRegisteredMsg name)
  | some app => .ok (runScript env app.script_path)

/-- First loop of `Ups.update_latest_value`: for each name, obtain the
spawned check via `latest_value`, early-returning on its error. -/
def collectResults (ups : Ups) (env : Env) :
    List Str → Except Str (List (Str × Except Str Str))
  | [] => .ok []
  | n :: rest =>
    match ups.latest_value env n with
    | .error e => .error e
    | .ok h =>
      match collectResults ups env rest with
      | .error e => .error e
      | .ok tl => .ok ((n, h) :: tl)

/-- Second loop of `Ups.update_latest_value`: fold the joined results into
the registry; `v?` propagates a thread's error, leaving the updates already
applied in place and skipping the rest. -/
def mergeResults (apps : List (Str × App)) :
    List (Str × Except Str Str) → List (Str × App) × Except Str Unit
  | [] => (apps, .ok ())
  | (n, v) :: rest =>
    match v with
    | .error e => (apps, .error e)
    | .ok value => mergeResults (setLatest apps n value) rest

/-- `Ups::update_latest_value`: spawn one check per registered application,
join them all, then merge the results into `latest_value` fields.  The
returned `Ups` is the registry state when the method returns, including the
partially-merged state left behind when a joined result is an `Err`. -/
def Ups.update_latest_value (ups : Ups) (env : Env) : Ups × Except Str Unit :=
  match collectResults ups env (ups.apps.map Prod.fst) with
  | .error e => (ups, .error e)
  | .ok results =>
    let m := mergeResults ups.apps results
    (⟨m.1⟩, m.2)

/-- `Ups::insert`: canonicalize the script path (early-returning the
filesystem error via `?`, before any mutation), then insert a fresh entry
with both values set to the `NONE` sentinel. -/
def Ups.insert (ups : Ups) (fs : Fs) (name script_path : Str) :
    Ups × Except Str Unit :=
  match fs script_path with
  | .error e => (ups, .error e)
  | .ok canon =>
    (⟨hmInsert ups.apps name ⟨canon, NONE, NONE⟩⟩, .ok ())

/-- `Ups::snapshot`: measure via `latest_value(name)?.tawait()?` (erroring
if the name is unregistered or the check hits an infrastructure error,
in both cases before any mutation), then set both stored values to the
freshly observed value. -/
def Ups.snapshot (ups : Ups) (env : Env) (name : Str) : Ups × Except Str Unit :=
  match ups.latest_value env name with
  | .error e => (ups, .error e)
  | .ok h =>
    match h with
    | .error e => (ups, .error e)
    | .ok v => (⟨setBoth ups.apps name v⟩, .ok ())

/-- The body (everything before the newline) of one line written by
`Ups::save`: the format string `"{}\t{}\t{}\t{}\t"` applied to
`name, snapshot_value, latest_value, script_path`. -/
def saveLineBody (name : Str) (app : App) : Str :=
  name ++ '\t' :: app.snapshot_value ++ '\t' :: app.latest_value ++
    '\t' :: app.script_path ++ ['\t']

/-- One line written by `Ups::save` (`writeln!` appends the newline). -/
def saveLine (name : Str) (app : App) : Str :=
  saveLineBody name app ++ ['\n']

/-- The loop of `Ups::save`, accumulating the file content line by line. -/
def saveApps : List (Str × App) → Str
  | [] => []
  | (n, a) :: rest => saveLine n a ++ saveApps rest

/-- `Ups::save`: the full content written to the data file (the file is
created/truncated, so the content is exactly the emitted lines). -/
def Ups.save (ups : Ups) : Str :=
  saveApps ups.apps

/-- `"Error while parsing data file"` -/
def parseErrorMsg : Str := "Error while parsing data file".toList

/-- The loop of `Ups::load`: split each line on whitespace, take the first
four fields as `name, snapshot_value, latest_value, script_path` (extra
fields are ignored), early-returning a parse error when a line has fewer
than four fields; parsed entries accumulate into a fresh map. -/
def parseLines : List Str → List (Str × App) → Except Str (List (Str × App))
  | [], acc => .ok acc
  | l :: ls, acc =>
    match tokens l with
    | name :: snapshot_value :: latest_value :: script_path :: _ =>
      parseLines ls (hmInsert acc name ⟨script_path, latest_value, snapshot_value⟩)
    | _ => .error parseErrorMsg

/-- `Ups::load`: a missing data file is not an error and nothing is
assigned; otherwise parse every line into a fresh map and only then replace
`self.apps`, so a parse error leaves the registry untouched. -/
def Ups.load (ups : Ups) (file : Option Str) : Ups × Except Str Unit :=
  match file with
  | none => (ups, .ok ())
  | some data =>
    match parseLines (rustLines data) [] with
    | .error e => (ups, .error e)
    | .ok apps => (⟨apps⟩, .ok ())

/-! ## Derived notions used to state the claims -/

/-- The check result `update_latest_value` obtains for a registered name
`n`: what the joined thread for `n`'s app returns. -/
def checkOf (ups : Ups) (env : Env) (n : Str) : Except Str Str :=
  match findApp ups.apps n with
  | none => Except.error (notRegisteredMsg n)
  | some a => runScript env a.script_path

/-- A field that survives the whitespace-splitting parser intact:
non-empty and free of whitespace characters. -/
def goodField (f : Str) : Prop :=
  f ≠ [] ∧ ∀ c ∈ f, isWS c = false

/-- All three stored fields of an application survive the parser. -/
def goodApp (a : App) : Prop :=
  goodField a.script_path ∧ goodField a.latest_value ∧ goodField a.snapshot_value

/-- A registry whose save file parses back to exactly itself: unique
names, and every persisted field non-empty and whitespace-free. -/
def goodRegistry (R : Ups) : Prop :=
  (R.apps.map Prod.fst).Nodup ∧ ∀ p ∈ R.apps, goodField p.1 ∧ goodApp p.2

/-- A field containing no newline (so it cannot break the line format). -/
def noNl (f : Str) : Prop :=
  ∀ c ∈ f, c ≠ '\n'

/-- All four persisted fields of a registry entry contain no newline. -/
def lineSafe (R : Ups) : Prop :=
  ∀ p ∈ R.apps, noNl p.1 ∧ noNl p.2.snapshot_value ∧ noNl p.2.latest_value ∧
    noNl p.2.script_path

instance (f : Str) : Decidable (goodField f) := by
  unfold goodField
  infer_instance

instance (a : App) : Decidable (goodApp a) := by
  unfold goodApp
  infer_instance

instance (R : Ups) : Decidable (goodRegistry R) := by
  unfold goodRegistry
  infer_instance

instance (f : Str) : Decidable (noNl f) := by
  unfold noNl
  infer_instance

instance (R : Ups) : Decidable (lineSafe R) := by
  unfold lineSafe
  infer_instance

/-! ## Concrete fixtures for counterexamples and witnesses -/

/-- Fixture: application name `alpha`. -/
def nA : Str := "alpha".toList

/-- Fixture: application name `beta`. -/
def nB : Str := "beta".toList

/-- Fixture: script path of `alpha`. -/
def pA : Str := "/s/alpha.sh".toList

/-- Fixture: script path of `beta`. -/
def pB : Str := "/s/beta.sh".toList

/-- Fixture: a version string. -/
def vOne : Str := "1.0".toList

/-- Fixture: another version string. -/
def vTwo : Str := "2.0".toList

/-- Fixture: a two-application registry (`alpha` has an observed latest
value, `beta` has never been observed). -/
def upsAB : Ups :=
  ⟨[(nA, ⟨pA, vOne, NONE⟩), (nB, ⟨pB, NONE, NONE⟩)]⟩

/-- Fixture environment: `alpha`'s checker cannot be spawned at all while
`beta`'s checker runs successfully and prints `2.0`. -/
def envSpawnFail : Env := fun p =>
  if p = pA then .spawnError "no such file".toList
  else .ran true "2.0\n".toList

/-- Fixture environment: `alpha`'s checker runs but exits with non-zero
status while `beta`'s checker runs successfully and prints `2.0`. -/
def envMixed : Env := fun p =>
  if p = pA then .ran false "ignored".toList
  else .ran true "2.0\n".toList

/-- Fixture: a registry whose script path contains a space but no tab and
no newline. -/
def upsSpacePath : Ups :=
  ⟨[(nA, ⟨"/s/my tool.sh".toList, NONE, NONE⟩)]⟩

/-- Fixture: a name registered in no fixture registry. -/
def nC : Str := "gamma".toList

/-- Fixture filesystem on which every path resolves, to a canonical form
distinct from the input. -/
def fsOkFixture : Fs := fun p => .ok ("/canon".toList ++ p)

/-- Fixture filesystem on which no path resolves. -/
def fsFail : Fs := fun _ => .error "no such path".toList


/-! ## Lemmas about the registry map -/

theorem findApp_cons (n : Str) (a : App) (rest : List (Str × App)) (k : Str) :
    findApp ((n, a) :: rest) k = if n = k then some a else findApp rest k := rfl

theorem findApp_isSome_iff {l : List (Str × App)} {k : Str} :
    (findApp l k).isSome ↔ ∃ p ∈ l, p.1 = k := by
  induction l with
  | nil => simp [findApp]
  | cons q rest ih =>
    obtain ⟨n, a⟩ := q
    rw [findApp_cons]
    by_cases h : n = k
    · rw [if_pos h]
      simp only [Option.isSome_some, true_iff]
      exact ⟨(n, a), List.mem_cons_self _ _, h⟩
    · rw [if_neg h, ih]
      constructor
      · rintro ⟨p, hp, he⟩
        exact ⟨p, List.mem_cons_of_mem _ hp, he⟩
      · rintro ⟨p, hp, he⟩
        rcases List.mem_cons.mp hp with rfl | hp2
        · exact absurd he h
        · exact ⟨p, hp2, he⟩

theorem findApp_append_some {l l2 : List (Str × App)} {k : Str} {a : App}
    (h : findApp l k = some a) : findApp (l ++ l2) k = some a := by
  induction l with
  | nil => simp [findApp] at h
  | cons q rest ih =>
    obtain ⟨n, b⟩ := q
    rw [List.cons_append, findApp_cons]
    rw [findApp_cons] at h
    by_cases hk : n = k
    · rw [if_pos hk]
      rw [if_pos hk] at h
      exact h
    · rw [if_neg hk]
      rw [if_neg hk] at h
      exact ih h

theorem findApp_append_none {l l2 : List (Str × App)} {k : Str}
    (h : findApp l k = none) : findApp (l ++ l2) k = findApp l2 k := by
  induction l with
  | nil => rfl
  | cons q rest ih =>
    obtain ⟨n, b⟩ := q
    rw [List.cons_append, findApp_cons]
    rw [findApp_cons] at h
    by_cases hk : n = k
    · rw [if_pos hk] at h
      exact absurd h (by simp)
    · rw [if_neg hk]
      rw [if_neg hk] at h
      exact ih h

theorem findApp_mapEntry_self {l : List (Str × App)} {k : Str}
    {f : App → App} :
    findApp (mapEntry l k f) k = (findApp l k).map f := by
  induction l with
  | nil => rfl
  | cons q rest ih =>
    obtain ⟨n, a⟩ := q
    simp only [mapEntry, List.map_cons] at ih ⊢
    by_cases hk : n = k
    · rw [if_pos hk, findApp_cons, findApp_cons, if_pos hk, if_pos hk]
      rfl
    · rw [if_neg hk, findApp_cons, findApp_cons, if_neg hk, if_neg hk]
      exact ih

theorem findApp_mapEntry_ne {l : List (Str × App)} {k m : Str}
    {f : App → App} (h : m ≠ k) :
    findApp (mapEntry l k f) m = findApp l m := by
  induction l with
  | nil => rfl
  | cons q rest ih =>
    obtain ⟨n, a⟩ := q
    simp only [mapEntry, List.map_cons] at ih ⊢
    by_cases hk : n = k
    · have h1 : ¬ n = m := fun hh => h ((hh ▸ hk : m = k))
      rw [if_pos hk, findApp_cons, findApp_cons, if_neg h1, if_neg h1]
      exact ih
    · rw [if_neg hk, findApp_cons, findApp_cons]
      by_cases hm : n = m
      · rw [if_pos hm, if_pos hm]
      · rw [if_neg hm, if_neg hm]
        exact ih

theorem findApp_hmInsert_self {l : List (Str × App)} {k : Str} {v : App} :
    findApp (hmInsert l k v) k = some v := by
  unfold hmInsert
  by_cases h : (findApp l k).isSome
  · rw [if_pos h, findApp_mapEntry_self]
    obtain ⟨a, ha⟩ := Option.isSome_iff_exists.mp h
    rw [ha]
    rfl
  · rw [if_neg h, findApp_append_none (Option.not_isSome_iff_eq_none.mp h),
      findApp_cons, if_pos rfl]

theorem findApp_hmInsert_ne {l : List (Str × App)} {k m : Str} {v : App}
    (h : m ≠ k) :
    findApp (hmInsert l k v) m = findApp l m := by
  unfold hmInsert
  by_cases hs : (findApp l k).isSome
  · rw [if_pos hs]
    exact findApp_mapEntry_ne h
  · rw [if_neg hs]
    cases hfind : findApp l m with
    | some a => rw [findApp_append_some hfind]
    | none =>
      rw [findApp_append_none hfind, findApp_cons,
        if_neg (fun hh => h hh.symm)]
      rfl

theorem findApp_eq_of_mem {l : List (Str × App)} {n : Str} {a : App}
    (hnd : (l.map Prod.fst).Nodup) (hmem : (n, a) ∈ l) :
    findApp l n = some a := by
  induction l with
  | nil => simp at hmem
  | cons q rest ih =>
    obtain ⟨m, b⟩ := q
    rw [List.map_cons] at hnd
    rcases List.mem_cons.mp hmem with heq | h2
    · rw [Prod.mk.injEq] at heq
      obtain ⟨rfl, rfl⟩ := heq
      rw [findApp_cons, if_pos rfl]
    · have hne : ¬ m = n := by
        intro hmn
        subst hmn
        exact (List.nodup_cons.mp hnd).1 (List.mem_map.mpr ⟨(m, a), h2, rfl⟩)
      rw [findApp_cons, if_neg hne]
      exact ih (List.nodup_cons.mp hnd).2 h2

/-! ## Lemmas about the refresh engine -/

theorem collectResults_eq (ups : Ups) (env : Env) :
    ∀ names : List Str, (∀ n ∈ names, ∃ p ∈ ups.apps, p.1 = n) →
      collectResults ups env names =
        .ok (names.map fun n => (n, checkOf ups env n)) := by
  intro names h
  induction names with
  | nil => rfl
  | cons n rest ih =>
    have hn : ∃ p ∈ ups.apps, p.1 = n := h n (List.mem_cons_self _ _)
    have hsome : (findApp ups.apps n).isSome := findApp_isSome_iff.mpr hn
    obtain ⟨a, ha⟩ := Option.isSome_iff_exists.mp hsome
    have hrest := ih fun m hm => h m (List.mem_cons_of_mem _ hm)
    simp only [collectResults, Ups.latest_value, ha, hrest, List.map_cons]
    simp [checkOf, ha]

theorem mergeResults_snd_error :
    ∀ (results : List (Str × Except Str Str)) (apps : List (Str × App))
      (n : Str) (e : Str), (n, Except.error e) ∈ results →
      ∃ e2, (mergeResults apps results).2 = Except.error e2 := by
  intro results
  induction results with
  | nil =>
    intro apps n e h
    simp at h
  | cons q rest ih =>
    intro apps n e h
    obtain ⟨m, v⟩ := q
    cases v with
    | error e0 => exact ⟨e0, rfl⟩
    | ok value =>
      rcases List.mem_cons.mp h with heq | h2
      · exact absurd heq (by simp)
      · exact ih (setLatest apps m value) n e h2

/-! ## Claim C1 -/

/-- C1, as stated, is false of the code: during a full refresh, an
underlying infrastructure error (the script executable cannot be spawned
at all) is NOT coerced to the "none" sentinel.  Concretely, with `alpha`'s
checker unspawnable and `beta`'s checker succeeding with output `2.0`,
`update_latest_value` returns the spawn error as a process-level error and
the registry is left entirely unchanged — in particular `beta`'s
`latest_value` is still the sentinel even though its check succeeded
(second conjunct), so the refresh of the other application did not
complete. -/
theorem C1_counterexample :
    Ups.update_latest_value upsAB envSpawnFail =
      (upsAB, Except.error ("no such file".toList)) ∧
    runScript envSpawnFail pB = Except.ok vTwo :=
  ⟨rfl, rfl⟩

/-- C1 (amended): during a full refresh, a check that suffers an
underlying infrastructure error (spawn failure) is not coerced to the
"none" sentinel; instead `update_latest_value` propagates it as a
process-level error, aborting the merge of the batch.  (Checks whose
process runs but fails — non-zero exit or empty output — are the ones
coerced to the sentinel; see C3.) -/
theorem C1_infra_error_aborts_refresh (ups : Ups) (env : Env) (name : Str)
    (app : App) (msg : Str)
    (hnd : (ups.apps.map Prod.fst).Nodup)
    (hmem : (name, app) ∈ ups.apps)
    (hsp : env app.script_path = ScriptOutcome.spawnError msg) :
    ∃ e, (ups.update_latest_value env).2 = Except.error e := by
  have hkeys : ∀ n ∈ ups.apps.map Prod.fst, ∃ p ∈ ups.apps, p.1 = n := by
    intro n hn
    obtain ⟨p, hp, hfst⟩ := List.mem_map.mp hn
    exact ⟨p, hp, hfst⟩
  have hcoll := collectResults_eq ups env (ups.apps.map Prod.fst) hkeys
  have hname : name ∈ ups.apps.map Prod.fst :=
    List.mem_map.mpr ⟨(name, app), hmem, rfl⟩
  have hcheck : checkOf ups env name = Except.error msg := by
    simp [checkOf, findApp_eq_of_mem hnd hmem, runScript, hsp]
  have hmem2 : (name, Except.error msg) ∈
      (ups.apps.map Prod.fst).map fun n => (n, checkOf ups env n) := by
    rw [← hcheck]
    exact List.mem_map.mpr ⟨name, hname, rfl⟩
  obtain ⟨e2, he2⟩ :=
    mergeResults_snd_error _ ups.apps name msg hmem2
  refine ⟨e2, ?_⟩
  unfold Ups.update_latest_value
  rw [hcoll]
  exact he2

/-- Witness for `C1_infra_error_aborts_refresh` at the concrete two-app
registry: all hypotheses hold and the refresh indeed returns an error. -/
theorem C1_witness :
    ((upsAB.apps.map Prod.fst).Nodup ∧
      (nA, (⟨pA, vOne, NONE⟩ : App)) ∈ upsAB.apps ∧
      envSpawnFail pA = ScriptOutcome.spawnError ("no such file".toList)) ∧
    ∃ e, (Ups.update_latest_value upsAB envSpawnFail).2 = Except.error e :=
  ⟨⟨by decide, by decide, rfl⟩,
    C1_infra_error_aborts_refresh upsAB envSpawnFail nA ⟨pA, vOne, NONE⟩
      ("no such file".toList) (by decide) (by decide) rfl⟩

/-! ## Claim C3 -/

/-- C3: after a full refresh over a registry with two applications where
`alpha`'s script exits non-zero and `beta`'s script exits zero printing
`2.0`, `alpha`'s `latest_value` equals the "none" sentinel, `beta`'s
equals `2.0`, and the refresh succeeds: one application's script failure
neither blocks nor corrupts the other's result. -/
theorem C3_failure_isolation :
    Ups.update_latest_value upsAB envMixed =
      (⟨[(nA, ⟨pA, NONE, NONE⟩), (nB, ⟨pB, vTwo, NONE⟩)]⟩,
        Except.ok ()) :=
  rfl

/-! ## Claim C4 -/

/-- C4: for every name and script path that resolves (canonicalizes)
successfully, `insert` succeeds, the registry's entry for that name has
`snapshot_value` and `latest_value` both equal to the "none" sentinel and
its stored path equal to the canonicalized path (replacing any prior entry
under the name entirely), and every other name's entry is untouched. -/
theorem C4_insert_success (ups : Ups) (fs : Fs) (name script_path canon : Str)
    (h : fs script_path = Except.ok canon) :
    ∃ ups2 : Ups,
      ups.insert fs name script_path = (ups2, Except.ok ()) ∧
      findApp ups2.apps name = some ⟨canon, NONE, NONE⟩ ∧
      ∀ m, m ≠ name → findApp ups2.apps m = findApp ups.apps m := by
  refine ⟨⟨hmInsert ups.apps name ⟨canon, NONE, NONE⟩⟩, ?_, ?_, ?_⟩
  · simp [Ups.insert, h]
  · exact findApp_hmInsert_self
  · intro m hm
    exact findApp_hmInsert_ne hm

/-- Witness for `C4_insert_success`: inserting `alpha` (which is already
registered, with observed values) over `upsAB` on a filesystem where the
path resolves replaces the entry entirely and leaves `beta` untouched. -/
theorem C4_witness :
    fsOkFixture pA = Except.ok ("/canon".toList ++ pA) ∧
    ∃ ups2 : Ups,
      Ups.insert upsAB fsOkFixture nA pA = (ups2, Except.ok ()) ∧
      findApp ups2.apps nA = some ⟨"/canon".toList ++ pA, NONE, NONE⟩ ∧
      ∀ m, m ≠ nA → findApp ups2.apps m = findApp upsAB.apps m :=
  ⟨rfl, C4_insert_success upsAB fsOkFixture nA pA ("/canon".toList ++ pA) rfl⟩

/-! ## Claim C5 -/

/-- C5: for every name and script path that cannot be resolved,
`insert` returns the resolution error and the registry is exactly
unchanged — no entry added, removed or modified. -/
theorem C5_insert_failure (ups : Ups) (fs : Fs) (name script_path e : Str)
    (h : fs script_path = Except.error e) :
    ups.insert fs name script_path = (ups, Except.error e) := by
  simp [Ups.insert, h]

/-- Witness for `C5_insert_failure`: inserting a new name over `upsAB` on
a filesystem where no path resolves fails and leaves `upsAB` unchanged. -/
theorem C5_witness :
    fsFail pB = Except.error ("no such path".toList) ∧
    Ups.insert upsAB fsFail nC pB = (upsAB, Except.error ("no such path".toList)) :=
  ⟨rfl, C5_insert_failure upsAB fsFail nC pB ("no such path".toList) rfl⟩

/-! ## Claim C6 -/

/-- C6, as stated, is false of the code: for a *registered* name whose
checker executable cannot be spawned at all, the claim (with the spec's
definition of the observed value of such a check as the "none" sentinel)
requires `snapshot` to set both stored values to the sentinel; instead,
`snapshot` propagates the spawn error to the caller and mutates nothing.
Concretely, snapshotting the registered `alpha` under `envSpawnFail`
returns the spawn error and leaves `alpha`'s values exactly as they were
(`1.0` / sentinel), not set to the sentinel. -/
theorem C6_counterexample :
    Ups.snapshot upsAB envSpawnFail nA =
      (upsAB, Except.error ("no such file".toList)) ∧
    findApp (Ups.snapshot upsAB envSpawnFail nA).1.apps nA =
      some ⟨pA, vOne, NONE⟩ :=
  ⟨rfl, rfl⟩

/-- C6 (amended): `snapshot(name)` fails with the "not registered" error
when `name` is absent, leaving the registry unchanged.  When `name` is
present and its checker process runs to completion, it sets both
`latest_value` and `snapshot_value` of that application to the freshly
observed value — including when that value is the "none" sentinel (after a
non-zero exit or empty output) — leaving every other application
untouched.  But when the check suffers an underlying infrastructure error
(the executable cannot be spawned at all), `snapshot` propagates that
error to the caller and leaves the registry unchanged, rather than
snapshotting the sentinel. -/
theorem C6_snapshot_amended (ups : Ups) (env : Env) (name : Str) :
    (findApp ups.apps name = none →
      ups.snapshot env name = (ups, Except.error (notRegisteredMsg name))) ∧
    (∀ app v, findApp ups.apps name = some app →
      runScript env app.script_path = Except.ok v →
      ∃ ups2 : Ups,
        ups.snapshot env name = (ups2, Except.ok ()) ∧
        findApp ups2.apps name = some ⟨app.script_path, v, v⟩ ∧
        ∀ m, m ≠ name → findApp ups2.apps m = findApp ups.apps m) ∧
    (∀ app e, findApp ups.apps name = some app →
      runScript env app.script_path = Except.error e →
      ups.snapshot env name = (ups, Except.error e)) := by
  refine ⟨?_, ?_, ?_⟩
  · intro h
    simp [Ups.snapshot, Ups.latest_value, h]
  · intro app v ha hv
    refine ⟨⟨setBoth ups.apps name v⟩, ?_, ?_, ?_⟩
    · simp [Ups.snapshot, Ups.latest_value, ha, hv]
    · show findApp (mapEntry ups.apps name
          (fun a => { a with latest_value := v, snapshot_value := v })) name =
        some ⟨app.script_path, v, v⟩
      rw [findApp_mapEntry_self, ha]
      rfl
    · intro m hm
      show findApp (mapEntry ups.apps name
          (fun a => { a with latest_value := v, snapshot_value := v })) m =
        findApp ups.apps m
      exact findApp_mapEntry_ne hm
  · intro app e ha he
    simp [Ups.snapshot, Ups.latest_value, ha, he]

/-- Witness for `C6_snapshot_amended`: on `upsAB`, snapshotting the
unregistered name `gamma` fails with the "not registered" error and
changes nothing; snapshotting `alpha` under `envMixed` — whose script
exits non-zero, so the freshly observed value is the "none" sentinel —
succeeds and sets both of `alpha`'s stored values to the sentinel; and
snapshotting `alpha` under `envSpawnFail` — whose executable cannot be
spawned — propagates the spawn error with the registry unchanged. -/
theorem C6_witness :
    (findApp upsAB.apps nC = none ∧
      Ups.snapshot upsAB envMixed nC =
        (upsAB, Except.error (notRegisteredMsg nC))) ∧
    (findApp upsAB.apps nA = some ⟨pA, vOne, NONE⟩ ∧
      runScript envMixed pA = Except.ok NONE ∧
      ∃ ups2 : Ups,
        Ups.snapshot upsAB envMixed nA = (ups2, Except.ok ()) ∧
        findApp ups2.apps nA = some ⟨pA, NONE, NONE⟩ ∧
        ∀ m, m ≠ nA → findApp ups2.apps m = findApp upsAB.apps m) ∧
    (runScript envSpawnFail pA = Except.error ("no such file".toList) ∧
      Ups.snapshot upsAB envSpawnFail nA =
        (upsAB, Except.error ("no such file".toList))) :=
  ⟨⟨by decide, (C6_snapshot_amended upsAB envMixed nC).1 (by decide)⟩,
    ⟨by decide, rfl,
      (C6_snapshot_amended upsAB envMixed nA).2.1 ⟨pA, vOne, NONE⟩ NONE
        (by decide) rfl⟩,
    ⟨rfl,
      (C6_snapshot_amended upsAB envSpawnFail nA).2.2 ⟨pA, vOne, NONE⟩
        ("no such file".toList) (by decide) rfl⟩⟩

/-! ## Claim C9 -/

/-- C9: when the data file does not exist, `load` succeeds — it is not an
error and the registry is not assigned, so the (initially empty) registry
stays exactly as it was; in particular loading into the startup-default
empty registry leaves it empty. -/
theorem C9_missing_file :
    (∀ ups : Ups, ups.load none = (ups, Except.ok ())) ∧
    (Ups.load ⟨[]⟩ none).1.apps = [] :=
  ⟨fun _ => rfl, rfl⟩

/-! ## Claim C2, counterexample half -/

/-- C2, as stated, is false of the code: `upsSpacePath`'s single field
values contain no tab and no newline, yet its script path contains a
space, which `load`'s whitespace-splitting parser cuts at the space.
Loading the saved file yields a registry whose entry for `alpha` differs
from the original (its stored path is truncated), and re-saving produces
different file content, refuting `save(load(save(R))) == save(R)`. -/
theorem C2_counterexample :
    (Ups.load ⟨[]⟩ (some (Ups.save upsSpacePath))).1.save ≠
      Ups.save upsSpacePath ∧
    findApp (Ups.load ⟨[]⟩ (some (Ups.save upsSpacePath))).1.apps nA ≠
      findApp upsSpacePath.apps nA := by
  constructor
  · decide
  · decide

/-! ## Lemmas about whitespace splitting and line splitting -/

theorem isEmpty_false_of_ne_nil {α : Type} {l : List α} (h : l ≠ []) :
    l.isEmpty = false := by
  cases l with
  | nil => exact absurd rfl h
  | cons a t => rfl

theorem tokensAux_nonws :
    ∀ (w rest acc : Str), (∀ c ∈ w, isWS c = false) →
      tokensAux (w ++ rest) acc = tokensAux rest (w.reverse ++ acc) := by
  intro w
  induction w with
  | nil =>
    intro rest acc _
    simp
  | cons c w2 ih =>
    intro rest acc h
    have hc : isWS c = false := h c (List.mem_cons_self _ _)
    show tokensAux (c :: (w2 ++ rest)) acc = _
    simp only [tokensAux]
    rw [hc, if_neg Bool.false_ne_true,
      ih rest (c :: acc) (fun d hd => h d (List.mem_cons_of_mem _ hd))]
    simp [List.append_assoc]

theorem tokensAux_ws_cons (c : Char) (rest acc : Str) (hc : isWS c = true) :
    tokensAux (c :: rest) acc =
      if acc.isEmpty then tokensAux rest []
      else acc.reverse :: tokensAux rest [] := by
  simp only [tokensAux]
  rw [hc, if_pos rfl]

theorem tokens_field_cons (f rest : Str) (hne : f ≠ [])
    (hws : ∀ c ∈ f, isWS c = false) :
    tokens (f ++ '\t' :: rest) = f :: tokens rest := by
  unfold tokens
  rw [tokensAux_nonws f ('\t' :: rest) [] hws, List.append_nil,
    tokensAux_ws_cons '\t' rest f.reverse rfl,
    if_neg (by rw [isEmpty_false_of_ne_nil (by simpa using hne)]; simp),
    List.reverse_reverse]

theorem tokens_saveLineBody (n : Str) (a : App)
    (hn : goodField n) (hs : goodField a.snapshot_value)
    (hl : goodField a.latest_value) (hp : goodField a.script_path) :
    tokens (saveLineBody n a) =
      [n, a.snapshot_value, a.latest_value, a.script_path] := by
  have hassoc : saveLineBody n a =
      n ++ '\t' :: (a.snapshot_value ++ '\t' :: (a.latest_value ++
        '\t' :: (a.script_path ++ '\t' :: []))) := by
    simp [saveLineBody, List.append_assoc]
  rw [hassoc,
    tokens_field_cons _ _ hn.1 hn.2,
    tokens_field_cons _ _ hs.1 hs.2,
    tokens_field_cons _ _ hl.1 hl.2,
    tokens_field_cons _ _ hp.1 hp.2]
  rfl

theorem splitNl_append :
    ∀ (l rest : Str), (∀ c ∈ l, c ≠ '\n') →
      splitNl (l ++ '\n' :: rest) = l :: splitNl rest := by
  intro l
  induction l with
  | nil =>
    intro rest _
    rfl
  | cons c l2 ih =>
    intro rest h
    have hc : ¬ c = '\n' := h c (List.mem_cons_self _ _)
    show splitNl (c :: (l2 ++ '\n' :: rest)) = _
    simp only [splitNl]
    rw [if_neg hc, ih rest (fun d hd => h d (List.mem_cons_of_mem _ hd))]

theorem noNl_saveLineBody {n : Str} {a : App}
    (h1 : noNl n) (h2 : noNl a.snapshot_value) (h3 : noNl a.latest_value)
    (h4 : noNl a.script_path) :
    ∀ c ∈ saveLineBody n a, c ≠ '\n' := by
  intro c hc
  unfold saveLineBody at hc
  rcases List.mem_append.mp hc with hc3 | htab
  · rcases List.mem_append.mp hc3 with hc2 | hTp
    · rcases List.mem_append.mp hc2 with hc1 | hTl
      · rcases List.mem_append.mp hc1 with hcn | hTs
        · exact h1 c hcn
        · rcases List.mem_cons.mp hTs with rfl | hcs
          · decide
          · exact h2 c hcs
      · rcases List.mem_cons.mp hTl with rfl | hcl
        · decide
        · exact h3 c hcl
    · rcases List.mem_cons.mp hTp with rfl | hcp
      · decide
      · exact h4 c hcp
  · rcases List.mem_singleton.mp htab with rfl
    decide

theorem splitNl_saveApps :
    ∀ apps : List (Str × App),
      (∀ p ∈ apps, ∀ c ∈ saveLineBody p.1 p.2, c ≠ '\n') →
      splitNl (saveApps apps) =
        (apps.map fun p => saveLineBody p.1 p.2) ++ [[]] := by
  intro apps
  induction apps with
  | nil =>
    intro _
    rfl
  | cons q rest ih =>
    intro h
    obtain ⟨n, a⟩ := q
    show splitNl ((saveLineBody n a ++ ['\n']) ++ saveApps rest) = _
    rw [List.append_assoc, List.singleton_append,
      splitNl_append _ _ (h (n, a) (List.mem_cons_self _ _)),
      ih (fun p hp => h p (List.mem_cons_of_mem _ hp))]
    simp

theorem stripCr_concat_tab (x : Str) : stripCr (x ++ ['\t']) = x ++ ['\t'] := by
  unfold stripCr
  rw [List.getLast?_concat, if_neg (by decide)]

theorem rustLines_saveApps (apps : List (Str × App))
    (h : ∀ p ∈ apps, ∀ c ∈ saveLineBody p.1 p.2, c ≠ '\n') :
    rustLines (saveApps apps) = apps.map fun p => saveLineBody p.1 p.2 := by
  unfold rustLines
  rw [splitNl_saveApps apps h, List.getLast?_concat, if_pos rfl,
    List.dropLast_concat, List.map_map]
  apply List.map_congr_left
  intro p _
  show stripCr (saveLineBody p.1 p.2) = saveLineBody p.1 p.2
  exact stripCr_concat_tab _

/-! ## Lemmas about the persistence parser -/

theorem parseLines_bodies :
    ∀ (apps acc : List (Str × App)),
      (∀ p ∈ apps, goodField p.1 ∧ goodApp p.2) →
      ((acc ++ apps).map Prod.fst).Nodup →
      parseLines (apps.map fun p => saveLineBody p.1 p.2) acc =
        .ok (acc ++ apps) := by
  intro apps
  induction apps with
  | nil =>
    intro acc _ _
    simp [parseLines]
  | cons q rest ih =>
    intro acc hg hnd
    obtain ⟨n, a⟩ := q
    obtain ⟨hgn, hga⟩ := hg (n, a) (List.mem_cons_self _ _)
    have htok := tokens_saveLineBody n a hgn hga.2.2 hga.2.1 hga.1
    simp only [List.map_cons, parseLines, htok]
    have hnotin : findApp acc n = none := by
      rw [← Option.not_isSome_iff_eq_none]
      intro hsome
      obtain ⟨p, hp, hfst⟩ := findApp_isSome_iff.mp hsome
      have h1 : n ∈ acc.map Prod.fst := List.mem_map.mpr ⟨p, hp, hfst⟩
      have hnd2 := hnd
      rw [List.map_append] at hnd2
      exact (List.nodup_append.mp hnd2).2.2 h1
        (List.mem_map.mpr ⟨(n, a), List.mem_cons_self _ _, rfl⟩)
    have hins : hmInsert acc n ⟨a.script_path, a.latest_value,
        a.snapshot_value⟩ = acc ++ [(n, a)] := by
      unfold hmInsert
      rw [hnotin]
      rfl
    rw [hins,
      ih (acc ++ [(n, a)]) (fun p hp => hg p (List.mem_cons_of_mem _ hp))
        (by rw [← List.append_cons]; exact hnd),
      ← List.append_cons]

/-- Shared round-trip core: loading the saved file of a `goodRegistry`
(into any starting registry) reconstructs that registry exactly. -/
theorem load_save_of_good (R U : Ups) (h : goodRegistry R) :
    U.load (some R.save) = (R, Except.ok ()) := by
  have hnl : ∀ p ∈ R.apps, ∀ c ∈ saveLineBody p.1 p.2, c ≠ '\n' := by
    intro p hp
    obtain ⟨hgn, hga⟩ := h.2 p hp
    have hws : ∀ (f : Str), goodField f → noNl f := by
      intro f hf c hc he
      have := hf.2 c hc
      rw [he] at this
      exact absurd this (by decide)
    exact noNl_saveLineBody (hws _ hgn) (hws _ hga.2.2) (hws _ hga.2.1)
      (hws _ hga.1)
  show (match parseLines (rustLines (saveApps R.apps)) [] with
    | Except.error e => (U, Except.error e)
    | Except.ok apps => (⟨apps⟩, Except.ok ())) = (R, Except.ok ())
  rw [rustLines_saveApps R.apps hnl,
    parseLines_bodies R.apps [] h.2 (by simpa using h.1)]
  simp

/-! ## Claim C2, amended half -/

/-- C2 (amended): for every registry `R` with unique names whose names,
values and script paths are non-empty and contain no whitespace characters
at all (not merely no tab/newline: the loader splits on every whitespace
character, so an interior space or an empty field breaks the round trip,
see the counterexample), saving `R` and loading the saved file reproduces
`R` exactly — same names, same snapshot/latest values, same script paths —
and consequently `save(load(save(R))) = save(R)`. -/
theorem C2_roundtrip (R U : Ups) (h : goodRegistry R) :
    U.load (some R.save) = (R, Except.ok ()) ∧
    (U.load (some R.save)).1.save = R.save := by
  have hload := load_save_of_good R U h
  exact ⟨hload, by rw [hload]⟩

/-- Witness for `C2_roundtrip`: the two-application registry `upsAB` is a
`goodRegistry` and round-trips through save/load exactly. -/
theorem C2_witness :
    goodRegistry upsAB ∧
    ((Ups.load ⟨[]⟩ (some upsAB.save)) = (upsAB, Except.ok ()) ∧
      (Ups.load ⟨[]⟩ (some upsAB.save)).1.save = upsAB.save) :=
  ⟨by decide, C2_roundtrip upsAB ⟨[]⟩ (by decide)⟩

/-! ## Claim C7 -/

/-- C7: provided no stored field contains a newline, the saved data file
consists of exactly one line per registered application, each line being
the name, snapshot value, latest value and script path in that fixed
order, separated by single horizontal tabs and carrying a trailing tab
before the newline; and the sentinel written for absent snapshot/latest
values is the literal token `NONE`. -/
theorem C7_save_format (ups : Ups) (h : lineSafe ups) :
    rustLines ups.save =
      (ups.apps.map fun p =>
        p.1 ++ '\t' :: p.2.snapshot_value ++ '\t' :: p.2.latest_value ++
          '\t' :: p.2.script_path ++ ['\t']) ∧
    NONE = "NONE".toList := by
  constructor
  · show rustLines (saveApps ups.apps) = _
    have hnl : ∀ p ∈ ups.apps, ∀ c ∈ saveLineBody p.1 p.2, c ≠ '\n' := by
      intro p hp
      obtain ⟨h1, h2, h3, h4⟩ := h p hp
      exact noNl_saveLineBody h1 h2 h3 h4
    exact rustLines_saveApps ups.apps hnl
  · rfl

/-- Witness for `C7_save_format` at the concrete registry `upsAB` (whose
`beta` entry carries the sentinel in both value fields). -/
theorem C7_witness :
    lineSafe upsAB ∧
    (rustLines upsAB.save =
      (upsAB.apps.map fun p =>
        p.1 ++ '\t' :: p.2.snapshot_value ++ '\t' :: p.2.latest_value ++
          '\t' :: p.2.script_path ++ ['\t']) ∧
      NONE = "NONE".toList) :=
  ⟨by decide, C7_save_format upsAB (by decide)⟩

/-! ## Claim C8 -/

theorem parseLines_error_of_short :
    ∀ (ls : List Str) (acc : List (Str × App)),
      (∃ l ∈ ls, (tokens l).length < 4) →
      parseLines ls acc = .error parseErrorMsg := by
  intro ls
  induction ls with
  | nil =>
    intro acc h
    simp at h
  | cons l ls2 ih =>
    intro acc h
    rcases htl : tokens l with _ | ⟨n, _ | ⟨s, _ | ⟨lv, _ | ⟨p, rest⟩⟩⟩⟩
    all_goals simp only [parseLines, htl]
    case cons.cons.cons.cons.cons =>
      apply ih
      obtain ⟨l2, hl2, hlen⟩ := h
      rcases List.mem_cons.mp hl2 with rfl | hmem
      · rw [htl] at hlen
        simp at hlen
        omega
      · exact ⟨l2, hmem, hlen⟩

/-- C8: for every data file content containing at least one malformed line
(fewer than four whitespace-delimited fields), `load` fails with the parse
error and the registry is exactly what it was before the load — never a
mixture of parsed and unparsed lines, since `self.apps` is only assigned
after every line has parsed. -/
theorem C8_malformed_line (ups : Ups) (data : Str)
    (h : ∃ l ∈ rustLines data, (tokens l).length < 4) :
    ups.load (some data) = (ups, Except.error parseErrorMsg) := by
  show (match parseLines (rustLines data) [] with
    | Except.error e => (ups, Except.error e)
    | Except.ok apps => (⟨apps⟩, Except.ok ())) = (ups, Except.error parseErrorMsg)
  rw [parseLines_error_of_short (rustLines data) [] h]

/-- Witness for `C8_malformed_line`: a file whose first line is well
formed and whose second line has only two fields fails the load and
leaves the (non-empty) starting registry `upsAB` untouched. -/
theorem C8_witness :
    (∃ l ∈ rustLines ("alpha\tNONE\tNONE\t/s/alpha.sh\t\nbeta\tNONE\n".toList),
      (tokens l).length < 4) ∧
    Ups.load upsAB (some ("alpha\tNONE\tNONE\t/s/alpha.sh\t\nbeta\tNONE\n".toList)) =
      (upsAB, Except.error parseErrorMsg) :=
  ⟨by decide,
    C8_malformed_line upsAB ("alpha\tNONE\tNONE\t/s/alpha.sh\t\nbeta\tNONE\n".toList)
      (by decide)⟩

/-! ## Claim C10 -/

/-- C10: `load` stores each parsed script path verbatim as read from the
data file: it consults no filesystem at all (its embedding takes no `Fs`
argument, unlike `insert`, which canonicalizes through `Path::canonicalize`
and fails on unresolvable paths).  Loading a line whose fourth field is an
arbitrary token `p` — relative, non-canonical or non-existent as it may
be — produces a registry entry whose `script_path` is exactly `p`, so the
absolute-canonical-existing invariant is established only by `insert`. -/
theorem C10_load_verbatim (U : Ups) (n s l p : Str)
    (hn : goodField n) (hs : goodField s) (hl : goodField l)
    (hp : goodField p) :
    U.load (some (n ++ '\t' :: s ++ '\t' :: l ++ '\t' :: p ++ ['\t', '\n'])) =
      (⟨[(n, ⟨p, l, s⟩)]⟩, Except.ok ()) := by
  have hgood : goodRegistry ⟨[(n, ⟨p, l, s⟩)]⟩ := by
    refine ⟨by simp, ?_⟩
    intro q hq
    rcases List.mem_singleton.mp hq with rfl
    exact ⟨hn, hp, hl, hs⟩
  have hsave : Ups.save ⟨[(n, ⟨p, l, s⟩)]⟩ =
      n ++ '\t' :: s ++ '\t' :: l ++ '\t' :: p ++ ['\t', '\n'] := by
    simp [Ups.save, saveApps, saveLine, saveLineBody, List.append_assoc]
  rw [← hsave]
  exact load_save_of_good ⟨[(n, ⟨p, l, s⟩)]⟩ U hgood

/-- Witness for `C10_load_verbatim`: loading a line whose script path is
the relative, non-canonical `./tools/../check.sh` yields an entry storing
that path verbatim. -/
theorem C10_witness :
    (goodField nA ∧ goodField NONE ∧
      goodField ("./tools/../check.sh".toList)) ∧
    Ups.load ⟨[]⟩ (some (nA ++ '\t' :: NONE ++ '\t' :: NONE ++
        '\t' :: "./tools/../check.sh".toList ++ ['\t', '\n'])) =
      (⟨[(nA, ⟨"./tools/../check.sh".toList, NONE, NONE⟩)]⟩, Except.ok ()) :=
  ⟨⟨by decide, by decide, by decide⟩,
    C10_load_verbatim ⟨[]⟩ nA NONE NONE ("./tools/../check.sh".toList)
      (by decide) (by decide) (by decide) (by decide)⟩
